import Mathlib

/-!
# Verification of the DJT sentiment/stock pipeline

A shallow embedding, in Lean 4, of the core data pipeline of the DJT
repository: the date chunker of `src/fetchers/gdelt_direct.py`, the
normalizer / aggregator / merger / differencer of
`src/processors/data_processor.py`, and the statistics entry points of
`src/analyzers/data_analyzer.py`.

Modelling conventions:
* Python strings are modelled as `List Char` (`Str` below), so that string
  comparison and lexicographic order are kernel-computable.
* Calendar dates handled by the chunker are modelled as day numbers
  (`Nat`); `timedelta(days=1)` becomes `+ 1`.
* `pandas` cell values are modelled by `Cell`: a numeric value (`Rat`,
  standing for the float), a missing value `NA` (NaN), or a string.
* A `pandas.DataFrame` is modelled column-orientedly as an ordered list of
  (column name, cell list) pairs (`Frame`), which is what the mutation
  claims are about; typed row lists are used for the merged series.
* Fallible library calls (date parsing, `float(...)`) are modelled with
  `Option`; `none` is the raised-exception / NaN path of the source.
-/

/-- Python strings, as character lists (kernel-computable order/equality). -/
abbrev Str := List Char

/-! ## Date chunker — `GdeltDirectFetcher._generate_date_pairs`

`src/src/fetchers/gdelt_direct.py`, lines 55–73.  Dates are day numbers;
`current_date + timedelta(days=1)` is `+ 1`.  The filesystem is abstracted
as a predicate `fileExists` on filenames (`os.path.exists`). -/

/-- The deterministic destination path
`f'{folder}/gdelt_direct_{current:%Y%m%d}_{next:%Y%m%d}.csv'`; the
`strftime("%Y%m%d")` rendering of a day is modelled by its decimal
representation, an injective encoding. -/
def outputFilename (folder : Str) (currentDate nextDate : Nat) : Str :=
  folder ++ "/gdelt_direct_".data ++ (toString currentDate).data
    ++ "_".data ++ (toString nextDate).data ++ ".csv".data

/-- `next_date = current_date + timedelta(days=1); if next_date > end_date:
next_date = end_date` — the upper bound of one chunk. -/
def nextDay (currentDate endDate : Nat) : Nat :=
  if currentDate + 1 > endDate then endDate else currentDate + 1

/-- `GdeltDirectFetcher._generate_date_pairs(start_date, end_date)`:
`while current_date < end_date:` emit `(current, next, filename)` for each
one-day chunk whose output file does not already exist, where
`next = current + 1 day`, truncated to `end_date`. -/
def generateDatePairs (fileExists : Str → Bool) (folder : Str)
    (currentDate endDate : Nat) : List (Nat × Nat × Str) :=
  if _h : currentDate < endDate then
    let rest := generateDatePairs fileExists folder (nextDay currentDate endDate) endDate
    if fileExists (outputFilename folder currentDate (nextDay currentDate endDate))
    then rest
    else (currentDate, nextDay currentDate endDate,
          outputFilename folder currentDate (nextDay currentDate endDate)) :: rest
  else []
termination_by endDate - currentDate
decreasing_by
  unfold nextDay
  split <;> omega

/-- A filesystem with no pre-existing outputs (first run). -/
def noFile : Str → Bool := fun _ => false

/-- `GdeltDirectFetcher._fetch_sequential`: one `_fetch_single_pair` call per
job, collecting the non-empty result frames.  The second component counts
the fetch calls performed (one per job). -/
def fetchSequential {Row : Type} (fetchSingle : Nat × Nat × Str → List Row) :
    List (Nat × Nat × Str) → List (List Row) × Nat
  | [] => ([], 0)
  | p :: ps =>
      let df := fetchSingle p
      let rest := fetchSequential fetchSingle ps
      (if df.isEmpty then rest.1 else df :: rest.1, rest.2 + 1)

/-! ## Cell values and the daily aggregation

`DataProcessor.process_gdelt_data` ends with
`df.groupby('Date')['V2ToneOut'].mean().reset_index()`
(`src/src/processors/data_processor.py`, lines 51–59): one output row per
distinct date, dates in ascending order (`groupby` sorts its keys), value =
arithmetic mean of the same-day values, missing values skipped. -/

/-- A `pandas` cell: a numeric value (float, modelled exactly as `Rat`),
a missing value (NaN/None), or a string. -/
inductive Cell where
  | num (q : Rat)
  | NA
  | str (s : Str)
deriving DecidableEq, Repr

/-- Insert a key into a sorted duplicate-free key list — builds the sorted
unique index of `groupby`. -/
def insertKey (k : Str) : List Str → List Str
  | [] => [k]
  | t :: ts =>
      if k = t then t :: ts
      else if k < t then k :: t :: ts
      else t :: insertKey k ts

/-- The sorted unique key index of `groupby('Date')`. -/
def sortedKeys (ks : List Str) : List Str :=
  ks.foldr insertKey []

/-- Mean of the non-missing values of a group, as `pandas` computes it
(`skipna`): NaN (`none`) when every value is missing. -/
def meanOfVals (vs : List Rat) : Option Rat :=
  if vs.length = 0 then none else some (vs.sum / (vs.length : Rat))

/-- `df.groupby('Date')['V2ToneOut'].mean().reset_index()` on the
(Date, V2ToneOut) pairs: one row per distinct date in ascending order,
carrying the mean of the non-missing same-day values. -/
def groupbyMeanOpt (rows : List (Str × Option Rat)) : List (Str × Option Rat) :=
  (sortedKeys (rows.map Prod.fst)).map
    (fun k => (k, meanOfVals ((rows.filter (fun r => r.1 = k)).filterMap Prod.snd)))

/-! ## Merge — `DataProcessor.merge_datasets`

`src/src/processors/data_processor.py`, lines 134–174.  Inputs are the two
daily series; each carries a `Date` cell and a value (sentiment resp.
adjusted close).  Both `Date` sides are converted with `astype(str)` before
the inner join. -/

/-- Python `str()` of a cell, as applied by `df['Date'].astype(str)`.
The rendering of a numeric value is an injective encoding of it; NaN
renders as the fixed text `nan`. -/
def cellStr : Cell → Str
  | Cell.str s => s
  | Cell.num q => (toString q).data
  | Cell.NA => "nan".data

/-- `merge_datasets(gdelt_df, stock_df)`: an empty frame when either input
is empty, else the inner join on the string-converted `Date` key; each
GDELT row pairs with every stock row carrying the same date string.
An output row is `(Date, V2ToneOut, Adj Close)`. -/
def mergeDatasets (gdeltDf stockDf : List (Cell × Rat)) :
    List (Str × Rat × Rat) :=
  if gdeltDf.isEmpty || stockDf.isEmpty then []
  else gdeltDf.flatMap (fun a =>
    (stockDf.filter (fun b => cellStr b.1 = cellStr a.1)).map
      (fun b => (cellStr a.1, a.2, b.2)))

/-! ## Differencer — `DataProcessor.calculate_differences`

`src/src/processors/data_processor.py`, lines 176–194.  The input is the
merged frame: rows `(Date, V2ToneOut, Adj Close)` with no missing values.
`df['diff_X'] = df['X'] - df['X'].shift(1)` gives NaN on the first row;
`dropna(subset=['diff_V2ToneOut', 'diff_Adj Close'])` then removes it. -/

/-- One row of the merged frame. -/
structure MRow where
  date : Str
  tone : Rat
  price : Rat
deriving DecidableEq, Repr

/-- One row after the diff columns are attached; `none` is the NaN that
`shift(1)` puts where no predecessor row exists. -/
structure DRow where
  date : Str
  tone : Rat
  price : Rat
  dTone : Option Rat
  dPrice : Option Rat
deriving DecidableEq, Repr

/-- Attach `x - x.shift(1)` for both value columns, `prev` being the
predecessor row (`none` before the first row). -/
def withDiffs : Option MRow → List MRow → List DRow
  | _, [] => []
  | prev, r :: rs =>
      { date := r.date, tone := r.tone, price := r.price,
        dTone := prev.map (fun p => r.tone - p.tone),
        dPrice := prev.map (fun p => r.price - p.price) } :: withDiffs (some r) rs

/-- `DataProcessor.calculate_differences`: empty input is returned as is;
otherwise the diff columns are added and the rows with NaN in either diff
column are dropped. -/
def calculateDifferences (df : List MRow) : List DRow :=
  if df.isEmpty then []
  else (withDiffs none df).filter (fun r => r.dTone.isSome && r.dPrice.isSome)

/-! ## Price column selection — `DataProcessor.process_stock_data`

`src/src/processors/data_processor.py`, lines 101–114: iterate over the
columns; `if 'close' in col.lower():` pick and break;
`elif 'adj close' in col.lower():` pick and break. -/

/-- `needle` occurs at the start of `hay` (character-wise). -/
def startsWith : Str → Str → Bool
  | [], _ => true
  | _ :: _, [] => false
  | c :: cs, d :: ds => c = d && startsWith cs ds

/-- Python's substring test `needle in hay`. -/
def containsSub : Str → Str → Bool
  | [], needle => needle.isEmpty
  | c :: t, needle => startsWith needle (c :: t) || containsSub t needle

/-- The column-selection loop of `process_stock_data`, kept with its
(dead) `elif 'adj close'` arm; `col.lower()` is the ASCII lowering. -/
def findPriceCol : List Str → Option Str
  | [] => none
  | c :: cs =>
      if containsSub (c.map Char.toLower) "close".data then some c
      else if containsSub (c.map Char.toLower) "adj close".data then some c
      else findPriceCol cs

/-! ## Column frames and the GDELT normalizer

`DataProcessor.process_gdelt_data` (`src/src/processors/data_processor.py`,
lines 24–66) dispatches on which date column the raw frame carries
(`seendate` / `DATE` / `date` / none), assigns the canonical `Date` and
`V2ToneOut` columns *into its argument frame*, and returns the daily
aggregation.  The frame is modelled column-orientedly. -/

/-- A `pandas.DataFrame`: ordered (column name, cells) pairs. -/
abbrev Frame := List (Str × List Cell)

/-- `df.columns`. -/
def frameCols (f : Frame) : List Str := f.map Prod.fst

/-- `name in df.columns`. -/
def frameHasCol (f : Frame) (c : Str) : Bool := decide (c ∈ frameCols f)

/-- `df[name]` (the empty column if absent — reads are guarded by
`frameHasCol` on every path the source takes). -/
def frameGetCol (f : Frame) (c : Str) : List Cell :=
  match f.find? (fun p => p.1 = c) with
  | some p => p.2
  | none => []

/-- `df[name] = cells`: overwrite the existing column in place, else append
a new column (pandas column assignment). -/
def frameSetCol (f : Frame) (c : Str) (cells : List Cell) : Frame :=
  if frameHasCol f c then f.map (fun p => if p.1 = c then (c, cells) else p)
  else f ++ [(c, cells)]

/-- `len(df.index)`: row count (all columns of a well-formed frame have the
same length; the maximum is taken for totality). -/
def frameNRows (f : Frame) : Nat := (f.map (fun p => p.2.length)).foldr max 0

/-- `df.empty`: no columns or no rows. -/
def frameEmpty (f : Frame) : Bool := f.isEmpty || decide (frameNRows f = 0)

/-- Python `s.split(',')`. -/
def splitComma : Str → List Str
  | [] => [[]]
  | c :: cs =>
      if c = ',' then [] :: splitComma cs
      else
        match splitComma cs with
        | [] => [[c]]
        | g :: gs => (c :: g) :: gs

/-- `DataProcessor._extract_tone_value(tone_str, which)` (lines 196–208),
with `which = 2` at its only call site (the declared default):
`None` unless the value is a string; split on commas; when more than
`which` components exist convert component `which` with `float(...)`
(modelled by the parser `pf`, `none` being the raised `ValueError`),
otherwise `None`. -/
def extractToneValue (pf : Str → Option Rat) (toneStr : Cell) (which : Nat) :
    Option Rat :=
  match toneStr with
  | Cell.str s =>
      let values := splitComma s
      if h : values.length > which then pf (values.get ⟨which, h⟩) else none
  | _ => none

/-- Gregorian month length, as the timestamp validation of
`pd.to_datetime` requires. -/
def daysInMonth (y m : Nat) : Nat :=
  if m = 2 then (if (y % 4 = 0 ∧ y % 100 ≠ 0) ∨ y % 400 = 0 then 29 else 28)
  else if m = 4 ∨ m = 6 ∨ m = 9 ∨ m = 11 then 30
  else 31

/-- Zero-padded decimal rendering of width `w` (one `strftime` field). -/
def padNum (w n : Nat) : Str :=
  let s := (toString n).data
  List.replicate (w - s.length) '0' ++ s

/-- `pd.to_datetime(n, format='%Y%m%d%H%M%S')` on one integer timestamp
followed by `.dt.strftime('%Y-%m-%d')`: requires exactly 14 digits forming
a valid calendar timestamp and renders the date part as `YYYY-MM-DD`;
`none` is the raised parse error. -/
def parseFormat14 (n : Nat) : Option Str :=
  if 10 ^ 13 ≤ n ∧ n < 10 ^ 14 then
    let y := n / 10 ^ 10
    let mo := n / 10 ^ 8 % 100
    let d := n / 10 ^ 6 % 100
    let hh := n / 10 ^ 4 % 100
    let mi := n / 10 ^ 2 % 100
    let ss := n % 100
    if 1 ≤ mo ∧ mo ≤ 12 ∧ 1 ≤ d ∧ d ≤ daysInMonth y mo
        ∧ hh < 24 ∧ mi < 60 ∧ ss < 60 then
      some (padNum 4 y ++ "-".data ++ padNum 2 mo ++ "-".data ++ padNum 2 d)
    else none
  else none

/-- One cell of the `DATE` column under
`pd.to_datetime(df['DATE'], format='%Y%m%d%H%M%S')`: the column is int64
(numeric cells); anything else raises. -/
def parseDateCell14 : Cell → Option Cell
  | Cell.num q =>
      if q.den = 1 ∧ 0 ≤ q.num then (parseFormat14 q.num.toNat).map Cell.str
      else none
  | _ => none

/-- The numeric content of a cell (`none` for NaN and for strings). -/
def cellVal : Cell → Option Rat
  | Cell.num q => some q
  | _ => none

/-- `_extract_tone_value` applied cell-wise by
`df['V2Tone'].apply(lambda x: self._extract_tone_value(x))`: a failed
extraction leaves NaN in the column. -/
def toneCell (pf : Str → Option Rat) (c : Cell) : Cell :=
  match extractToneValue pf c 2 with
  | some v => Cell.num v
  | none => Cell.NA

/-- The final `df.groupby('Date')['V2ToneOut'].mean().reset_index()`, read
off the mutated frame's `Date` and `V2ToneOut` columns. -/
def aggregateDaily (f : Frame) : List (Str × Option Rat) :=
  groupbyMeanOpt
    (((frameGetCol f "Date".data).zip (frameGetCol f "V2ToneOut".data)).map
      (fun p => (cellStr p.1, cellVal p.2)))

/-- `DataProcessor.process_gdelt_data`, as the pair (argument frame after
the call, returned daily frame).  `pdate` models the format-free
`pd.to_datetime(cell).strftime('%Y-%m-%d')` of the `seendate`/`date`
branches; `pf` models `float(...)`.  A `none` parse is the raised
exception: it occurs while the right-hand side of an assignment is being
evaluated, so that assignment does not mutate the frame, the `except`
clause catches it, and an empty frame is returned. -/
def processGdeltRun (pdate : Cell → Option Cell) (pf : Str → Option Rat)
    (f : Frame) : Frame × List (Str × Option Rat) :=
  if frameEmpty f then (f, [])
  else if frameHasCol f "seendate".data then
    match (frameGetCol f "seendate".data).mapM pdate with
    | none => (f, [])
    | some dates =>
        let f2 := frameSetCol (frameSetCol f "Date".data dates) "V2ToneOut".data
          (List.replicate (frameNRows f) (Cell.num 1))
        (f2, aggregateDaily f2)
  else if frameHasCol f "DATE".data then
    match (frameGetCol f "DATE".data).mapM parseDateCell14 with
    | none => (f, [])
    | some dates =>
        let f1 := frameSetCol f "Date".data dates
        let f2 :=
          if frameHasCol f1 "V2Tone".data then
            frameSetCol f1 "V2ToneOut".data
              ((frameGetCol f1 "V2Tone".data).map (toneCell pf))
          else
            frameSetCol f1 "V2ToneOut".data
              (List.replicate (frameNRows f) (Cell.num 1))
        (f2, aggregateDaily f2)
  else if frameHasCol f "date".data then
    match (frameGetCol f "date".data).mapM pdate with
    | none => (f, [])
    | some dates =>
        let f2 := frameSetCol (frameSetCol f "Date".data dates) "V2ToneOut".data
          (List.replicate (frameNRows f) (Cell.num 1))
        (f2, aggregateDaily f2)
  else
    let f2 := frameSetCol
      (frameSetCol f "Date".data
        (List.replicate (frameNRows f) (Cell.str "2025-01-01".data)))
      "V2ToneOut".data (List.replicate (frameNRows f) (Cell.num 1))
    (f2, aggregateDaily f2)

/-- The caller-visible state of the argument frame after
`process_gdelt_data`. -/
def processGdeltEffect (pdate : Cell → Option Cell) (pf : Str → Option Rat)
    (f : Frame) : Frame :=
  (processGdeltRun pdate pf f).1

/-- The daily frame returned by `process_gdelt_data` (empty on the empty
and exception paths, which return `df` resp. `pd.DataFrame()` — both
row-less). -/
def processGdeltData (pdate : Cell → Option Cell) (pf : Str → Option Rat)
    (f : Frame) : List (Str × Option Rat) :=
  (processGdeltRun pdate pf f).2

/-- Decimal parser standing in for Python `float(...)` on plain
`[-]digits[.digits]` literals, to instantiate the parser parameter of the
model at concrete inputs; `none` is the raised `ValueError`. -/
def splitOnChar (sep : Char) : Str → List Str
  | [] => [[]]
  | c :: cs =>
      if c = sep then [] :: splitOnChar sep cs
      else
        match splitOnChar sep cs with
        | [] => [[c]]
        | g :: gs => (c :: g) :: gs

/-- Value of a nonempty run of decimal digits (`none` otherwise). -/
def digitsVal (s : Str) : Option Nat :=
  if s.isEmpty then none
  else s.foldlM
    (fun acc c =>
      if '0' ≤ c ∧ c ≤ '9' then some (acc * 10 + (c.toNat - '0'.toNat))
      else none) 0

/-- `float(...)` on an unsigned decimal literal. -/
def parseDecimalCore (s : Str) : Option Rat :=
  match splitOnChar '.' s with
  | [w] => (digitsVal w).map (fun n => (n : Rat))
  | [w, fr] =>
      match digitsVal w, digitsVal fr with
      | some n, some m => some ((n : Rat) + (m : Rat) / (10 : Rat) ^ fr.length)
      | _, _ => none
  | _ => none

/-- `float(...)` on a decimal literal with optional leading minus. -/
def parseDecimal (s : Str) : Option Rat :=
  match s with
  | '-' :: rest => (parseDecimalCore rest).map (fun q => -q)
  | _ => parseDecimalCore s

/-- A one-row direct-GDELT raw frame, for instantiating the normalizer
theorems at a concrete input. -/
def gdeltSample : Frame :=
  [("DATE".data, [Cell.num 20240101120000]),
   ("V2Tone".data, [Cell.str "0,0,4".data])]

/-! ## Frame mutation across stages

`process_gdelt_data` and `calculate_differences` assign columns into the
frame object the caller passed (`df['Date'] = ...`, `df['diff_X'] = ...`),
while `merge_datasets` and `process_stock_data` only mutate fresh copies
(`reset_index(drop=True)` resp. `df.copy()`). -/

/-- Cell-wise `x - y`, as the vectorised `df['X'] - df['X'].shift(1)`:
NaN when either operand is missing, raised `TypeError` (`none`) when a
string is involved. -/
def cellSub : Cell → Cell → Option Cell
  | Cell.num a, Cell.num b => some (Cell.num (a - b))
  | Cell.num _, Cell.NA => some Cell.NA
  | Cell.NA, Cell.num _ => some Cell.NA
  | Cell.NA, Cell.NA => some Cell.NA
  | _, _ => none

/-- `series - series.shift(1)` cell-wise; the accumulator is the
predecessor cell, NaN before the first row. -/
def diffCellsGo : Cell → List Cell → Option (List Cell)
  | _, [] => some []
  | prev, c :: cs => do
      let d ← cellSub c prev
      let rest ← diffCellsGo c cs
      pure (d :: rest)

def diffCells (cells : List Cell) : Option (List Cell) :=
  diffCellsGo Cell.NA cells

/-- The caller-visible effect of `DataProcessor.calculate_differences` on
its argument frame: the two in-place diff-column assignments (lines
182–183).  An exception while a right-hand side is evaluated (missing
column, string-typed cells) leaves the pending assignment undone and is
caught by the `except`, which returns the frame as mutated so far. -/
def calcDiffEffect (f : Frame) : Frame :=
  if frameEmpty f then f
  else if frameHasCol f "Adj Close".data then
    match diffCells (frameGetCol f "Adj Close".data) with
    | none => f
    | some d1 =>
        let f1 := frameSetCol f "diff_Adj Close".data d1
        if frameHasCol f1 "V2ToneOut".data then
          match diffCells (frameGetCol f1 "V2ToneOut".data) with
          | none => f1
          | some d2 => frameSetCol f1 "diff_V2ToneOut".data d2
        else f1
  else f

/-- The caller-visible effect of `DataProcessor.merge_datasets` on its two
argument frames: none — the locals are rebound to
`reset_index(drop=True)` copies (lines 150–151) and every later assignment
mutates those copies. -/
def mergeEffect (gdeltDf stockDf : Frame) : Frame × Frame := (gdeltDf, stockDf)

/-- The caller-visible effect of `DataProcessor.process_stock_data` on its
argument frame: none — every mutation targets `df.copy()` or
`df.iloc[4:].copy()` (lines 75–81). -/
def processStockEffect (f : Frame) : Frame := f

/-- A two-row merged frame (numeric price and sentiment columns), for
instantiating the mutation theorems at a concrete input. -/
def mergedSample : Frame :=
  [("Adj Close".data, [Cell.num 1, Cell.num 2]),
   ("V2ToneOut".data, [Cell.num 3, Cell.num 4])]

/-! ## Statistics — `DataAnalyzer.analyze_correlation` / `perform_regression`

`src/src/analyzers/data_analyzer.py`, lines 20–100.  The analysis frame is
abstracted to its four numeric columns (`none` = column absent).  A
correlation coefficient `cov / sqrt(varX * varY)` is not rational, so its
exact value is carried as the pair (numerator, squared denominator); the
NaN produced by `pandas` on fewer than two pairs or a zero variance is
`none`.  The p-value and standard error of `linregress` (real-valued, via
the t-distribution and a square root) are the only outputs not carried;
no claim inspects them. -/

/-- One analysis frame: row count and the four value columns
(`V2ToneOut`, `Adj Close`, `diff_V2ToneOut`, `diff_Adj Close`), each
`none` when the column is absent. -/
structure StatFrame where
  nrows : Nat
  tone : Option (List Rat)
  price : Option (List Rat)
  dTone : Option (List Rat)
  dPrice : Option (List Rat)

def listMean (xs : List Rat) : Rat := xs.sum / (xs.length : Rat)

/-- Sum of products of deviations from the means (covariance numerator). -/
def covSum (xs ys : List Rat) : Rat :=
  ((xs.zip ys).map (fun p => (p.1 - listMean xs) * (p.2 - listMean ys))).sum

/-- Sum of squared deviations from the mean (variance numerator). -/
def varSum (xs : List Rat) : Rat :=
  (xs.map (fun x => (x - listMean xs) ^ 2)).sum

/-- `amax(x) == amin(x)`: every value equal (zero variance). -/
def allSame : List Rat → Bool
  | [] => true
  | a :: t => t.all (fun b => b = a)

/-- Exact encoding of a correlation value `num / sqrt den2`. -/
structure CorrVal where
  num : Rat
  den2 : Rat
deriving DecidableEq, Repr

/-- `pandas.Series.corr` (Pearson): NaN on fewer than two pairs or a
zero-variance side. -/
def pearsonCorr (xs ys : List Rat) : Option CorrVal :=
  if (xs.zip ys).length < 2 ∨ allSame xs ∨ allSame ys then none
  else some ⟨covSum xs ys, varSum xs * varSum ys⟩

/-- Average rank of `v` within `xs` (ties share the mean rank). -/
def rankOf (xs : List Rat) (v : Rat) : Rat :=
  (xs.countP (fun x => x < v) : Rat)
    + ((xs.countP (fun x => x = v) : Rat) + 1) / 2

/-- `corr(method='spearman')`: Pearson correlation of the ranks. -/
def spearmanCorr (xs ys : List Rat) : Option CorrVal :=
  pearsonCorr (xs.map (rankOf xs)) (ys.map (rankOf ys))

/-- `DataAnalyzer._calculate_lag_correlations` with `max_lags = 5`: for
each non-zero lag, correlate the shifted series against the other over the
non-missing overlap, reported only when the overlap has at least 2
points. -/
def lagCorrelations (tone price : List Rat) : List (Str × Option CorrVal) :=
  ((List.range 11).map (fun i => (i : Int) - 5)).filterMap (fun lag =>
    if lag = 0 then none
    else if lag > 0 then
      let l := lag.toNat
      let xs := tone.take (tone.length - l)
      let ys := price.drop l
      if (xs.zip ys).length > 1 then
        some ("stock_lag_".data ++ (toString lag).data, pearsonCorr xs ys)
      else none
    else
      let l := (-lag).toNat
      let xs := tone.drop l
      let ys := price.take (price.length - l)
      if (xs.zip ys).length > 1 then
        some ("sentiment_lag_".data ++ (toString (l : Int)).data,
              pearsonCorr xs ys)
      else none)

/-- A value of the `analyze_correlation` result dict: a correlation scalar
or the nested lag-correlation dict. -/
inductive AVal where
  | corr (v : Option CorrVal)
  | table (m : List (Str × Option CorrVal))
deriving DecidableEq

/-- `DataAnalyzer.analyze_correlation`: `{}` on an empty frame; otherwise
the level correlations (when both level columns exist), the difference
correlations (when both diff columns exist), and the lag-correlation table
(when both level columns exist). -/
def analyzeCorrelation (df : StatFrame) : List (Str × AVal) :=
  if df.nrows = 0 then []
  else
    let lvl :=
      match df.tone, df.price with
      | some t, some p =>
          [("correlation".data, AVal.corr (pearsonCorr t p)),
           ("spearman_correlation".data, AVal.corr (spearmanCorr t p))]
      | _, _ => []
    let dif :=
      match df.dTone, df.dPrice with
      | some dt, some dp =>
          [("diff_correlation".data, AVal.corr (pearsonCorr dt dp)),
           ("diff_spearman_correlation".data, AVal.corr (spearmanCorr dt dp))]
      | _, _ => []
    let lag :=
      match df.tone, df.price with
      | some t, some p => [("lag_correlations".data, AVal.table (lagCorrelations t p))]
      | _, _ => []
    lvl ++ dif ++ lag

/-- The modelled outputs of one `scipy.stats.linregress` fit: slope and
intercept (NaN — `none` — when the x variance is zero without the raise
firing, i.e. a single point) and r².  `r = 0` is what the source sets on a
zero-variance side, so r² is plain 0 there. -/
structure LinFit where
  slope : Option Rat
  intercept : Option Rat
  rSquared : Rat
deriving DecidableEq

/-- `scipy.stats.linregress`: raises (`none`) on empty input or when all
(two or more) x values are identical; a single point does not raise and
yields NaN slope/intercept. -/
def linregressModel (x y : List Rat) : Option LinFit :=
  if x.length = 0 ∨ y.length = 0 then none
  else if allSame x ∧ x.length > 1 then none
  else
    some
      { slope := if allSame x then none else some (covSum x y / varSum x),
        intercept :=
          if allSame x then none
          else some (listMean y - (covSum x y / varSum x) * listMean x),
        rSquared :=
          if allSame x ∨ allSame y then 0
          else covSum x y ^ 2 / (varSum x * varSum y) }

/-- `DataAnalyzer.perform_regression`: `{}` on an empty frame; a raised
`linregress` error anywhere is caught by the function-level `except`,
which discards everything and returns `{}`. -/
def performRegression (df : StatFrame) : List (Str × LinFit) :=
  if df.nrows = 0 then []
  else
    let step1 :=
      match df.tone, df.price with
      | some t, some p => (linregressModel t p).map (fun r => [("level".data, r)])
      | _, _ => some []
    match step1 with
    | none => []
    | some e1 =>
        match df.dTone, df.dPrice with
        | some dt, some dp =>
            match linregressModel dt dp with
            | none => []
            | some r => e1 ++ [("differences".data, r)]
        | _, _ => e1

/-! ## Theorems -/

theorem nextDay_of_lt {s e : Nat} (h : s < e) : nextDay s e = s + 1 := by
  unfold nextDay
  split <;> omega

/-- Closed form of the chunker on a fresh filesystem: the `k`-th emitted
chunk is `(start+k, start+k+1)`. -/
theorem generateDatePairs_noFile_closed (folder : Str) (s e : Nat) :
    generateDatePairs noFile folder s e =
      (List.range (e - s)).map
        (fun i => (s + i, s + i + 1, outputFilename folder (s + i) (s + i + 1))) := by
  generalize hn : e - s = n
  induction n generalizing s with
  | zero =>
      unfold generateDatePairs
      have : ¬ s < e := by omega
      simp [this]
  | succ n ih =>
      have hs : s < e := by omega
      unfold generateDatePairs
      rw [dif_pos hs, nextDay_of_lt hs]
      simp only [noFile, Bool.false_eq_true, if_false]
      rw [ih (s + 1) (by omega)]
      rw [List.range_succ_eq_map]
      simp only [List.map_cons, List.map_map, Nat.add_zero]
      congr 1
      apply List.map_congr_left
      intro i _
      have h1 : s + (i + 1) = s + 1 + i := by omega
      simp [Function.comp_apply, Nat.succ_eq_add_one, h1]

/-- With every destination file present, the chunker emits no jobs. -/
theorem generateDatePairs_all_exist (fileExists : Str → Bool) (folder : Str)
    (s e : Nat)
    (h : ∀ c, s ≤ c → c < e → fileExists (outputFilename folder c (nextDay c e)) = true) :
    generateDatePairs fileExists folder s e = [] := by
  generalize hn : e - s = n
  induction n generalizing s with
  | zero =>
      unfold generateDatePairs
      have : ¬ s < e := by omega
      simp [this]
  | succ n ih =>
      have hs : s < e := by omega
      unfold generateDatePairs
      rw [dif_pos hs, h s (Nat.le_refl s) hs, if_pos rfl]
      rw [nextDay_of_lt hs]
      exact ih (s + 1) (fun c hc1 hc2 => h c (by omega) hc2) (by omega)

/-- C1 (amended).  For `start < end` the chunker on a fresh filesystem
produces the ordered one-day chunks `(start+i, start+i+1)`: contiguous,
non-overlapping, and covering `[start, end)` exactly (equivalently, their
closed one-day ranges cover `[start, end]`).  However `start == end` yields
the empty job list, not a single degenerate range. -/
theorem chunker_partitions_range (folder : Str) (s e : Nat) (h : s ≤ e) :
    (generateDatePairs noFile folder s e).length = e - s
    ∧ (∀ i (hi : i < (generateDatePairs noFile folder s e).length),
        ((generateDatePairs noFile folder s e).get ⟨i, hi⟩).1 = s + i
        ∧ ((generateDatePairs noFile folder s e).get ⟨i, hi⟩).2.1 = s + i + 1)
    ∧ (∀ d, (s ≤ d ∧ d < e) ↔
        ∃ p ∈ generateDatePairs noFile folder s e, p.1 ≤ d ∧ d < p.2.1)
    ∧ (∀ d p₁ p₂, p₁ ∈ generateDatePairs noFile folder s e →
        p₂ ∈ generateDatePairs noFile folder s e →
        p₁.1 ≤ d → d < p₁.2.1 → p₂.1 ≤ d → d < p₂.2.1 → p₁ = p₂)
    ∧ (s = e → generateDatePairs noFile folder s e = []) := by
  rw [generateDatePairs_noFile_closed]
  refine ⟨by simp, ?_, ?_, ?_, ?_⟩
  · intro i hi
    simp only [List.length_map, List.length_range] at hi
    simp [List.get_eq_getElem, List.getElem_map, List.getElem_range]
  · intro d
    constructor
    · rintro ⟨hd1, hd2⟩
      refine ⟨(s + (d - s), s + (d - s) + 1,
               outputFilename folder (s + (d - s)) (s + (d - s) + 1)), ?_, ?_, ?_⟩
      · simp only [List.mem_map, List.mem_range]
        exact ⟨d - s, by omega, rfl⟩
      · show s + (d - s) ≤ d
        omega
      · show d < s + (d - s) + 1
        omega
    · rintro ⟨p, hp, hd1, hd2⟩
      simp only [List.mem_map, List.mem_range] at hp
      obtain ⟨i, hi, rfl⟩ := hp
      simp only at hd1 hd2
      omega
  · intro d p₁ p₂ hp₁ hp₂ h11 h12 h21 h22
    simp only [List.mem_map, List.mem_range] at hp₁ hp₂
    obtain ⟨i, hi, rfl⟩ := hp₁
    obtain ⟨j, hj, rfl⟩ := hp₂
    simp only at h11 h12 h21 h22
    have : i = j := by omega
    subst this
    rfl
  · intro he
    subst he
    simp

/-- C1 counterexample: on a fresh filesystem with `start == end` the chunker
produces zero ranges, not one degenerate range. -/
theorem chunker_degenerate_empty :
    (generateDatePairs noFile "data/gdelt".data 5 5).length = 0
    ∧ (generateDatePairs noFile "data/gdelt".data 5 5).length ≠ 1 := by
  rw [generateDatePairs_noFile_closed]
  simp

/-- Witness for `chunker_partitions_range` at `s = 2`, `e = 5`. -/
theorem chunker_partitions_range_witness :
    (2 : Nat) ≤ 5
    ∧ ((generateDatePairs noFile "data/gdelt".data 2 5).length = 5 - 2
       ∧ (∀ i (hi : i < (generateDatePairs noFile "data/gdelt".data 2 5).length),
           ((generateDatePairs noFile "data/gdelt".data 2 5).get ⟨i, hi⟩).1 = 2 + i
           ∧ ((generateDatePairs noFile "data/gdelt".data 2 5).get ⟨i, hi⟩).2.1 = 2 + i + 1)
       ∧ (∀ d, (2 ≤ d ∧ d < 5) ↔
           ∃ p ∈ generateDatePairs noFile "data/gdelt".data 2 5, p.1 ≤ d ∧ d < p.2.1)
       ∧ (∀ d p₁ p₂, p₁ ∈ generateDatePairs noFile "data/gdelt".data 2 5 →
           p₂ ∈ generateDatePairs noFile "data/gdelt".data 2 5 →
           p₁.1 ≤ d → d < p₁.2.1 → p₂.1 ≤ d → d < p₂.2.1 → p₁ = p₂)
       ∧ ((2 : Nat) = 5 → generateDatePairs noFile "data/gdelt".data 2 5 = [])) :=
  ⟨by decide, chunker_partitions_range "data/gdelt".data 2 5 (by decide)⟩

/-- C8: if every sub-range's destination file from a previous run already
exists, the second run's chunker emits zero jobs and the sequential
orchestrator performs zero fetch calls. -/
theorem second_run_zero_fetch_calls {Row : Type}
    (fetchSingle : Nat × Nat × Str → List Row)
    (fileExists : Str → Bool) (folder : Str) (s e : Nat)
    (h : ∀ c, s ≤ c → c < e → fileExists (outputFilename folder c (nextDay c e)) = true) :
    (fetchSequential fetchSingle (generateDatePairs fileExists folder s e)).2 = 0 := by
  rw [generateDatePairs_all_exist fileExists folder s e h]
  rfl

/-- Witness for `second_run_zero_fetch_calls`: a filesystem on which every
file exists, over the range `[3, 6]`. -/
theorem second_run_zero_fetch_calls_witness :
    (∀ c, 3 ≤ c → c < 6 →
      (fun (_ : Str) => true) (outputFilename "data/gdelt".data c (nextDay c 6)) = true)
    ∧ (fetchSequential (fun _ => [(7 : Nat)])
        (generateDatePairs (fun _ => true) "data/gdelt".data 3 6)).2 = 0 :=
  ⟨fun _ _ _ => rfl,
   second_run_zero_fetch_calls (fun _ => [7]) (fun _ => true) "data/gdelt".data 3 6
     (fun _ _ _ => rfl)⟩

theorem mem_insertKey {a k : Str} {l : List Str} :
    a ∈ insertKey k l ↔ a = k ∨ a ∈ l := by
  induction l with
  | nil => simp [insertKey]
  | cons t ts ih =>
      unfold insertKey
      split
      · next h1 =>
          subst h1
          simp only [List.mem_cons]
          tauto
      · next h1 =>
          split
          · simp only [List.mem_cons]
          · simp only [List.mem_cons, ih]
            tauto

theorem sorted_insertKey {k : Str} {l : List Str}
    (h : l.Sorted (· < ·)) : (insertKey k l).Sorted (· < ·) := by
  induction l with
  | nil => simp [insertKey]
  | cons t ts ih =>
      rw [List.sorted_cons] at h
      obtain ⟨ht, hts⟩ := h
      unfold insertKey
      split
      · next h1 =>
          subst h1
          rw [List.sorted_cons]
          exact ⟨ht, hts⟩
      · next h1 =>
          split
          · next h2 =>
              rw [List.sorted_cons, List.sorted_cons]
              refine ⟨?_, ht, hts⟩
              intro b hb
              rcases List.mem_cons.mp hb with rfl | hb
              · exact h2
              · exact lt_trans h2 (ht b hb)
          · next h2 =>
              rw [List.sorted_cons]
              have hkt : t < k := by
                rcases lt_trichotomy k t with hlt | heq | hgt
                · exact absurd hlt h2
                · exact absurd heq h1
                · exact hgt
              refine ⟨?_, ih hts⟩
              intro b hb
              rcases mem_insertKey.mp hb with rfl | hb
              · exact hkt
              · exact ht b hb

theorem sortedKeys_sorted (ks : List Str) : (sortedKeys ks).Sorted (· < ·) := by
  induction ks with
  | nil => simp [sortedKeys]
  | cons k ks ih => exact sorted_insertKey ih

theorem sortedKeys_nodup (ks : List Str) : (sortedKeys ks).Nodup :=
  (sortedKeys_sorted ks).nodup

theorem mem_sortedKeys {a : Str} {ks : List Str} :
    a ∈ sortedKeys ks ↔ a ∈ ks := by
  induction ks with
  | nil => simp [sortedKeys]
  | cons k ks ih =>
      show a ∈ insertKey k (sortedKeys ks) ↔ _
      rw [mem_insertKey, ih, List.mem_cons]

/-- Two key multisets with the same members produce the same sorted unique
index. -/
theorem sortedKeys_perm {ks ks' : List Str} (h : ks.Perm ks') :
    sortedKeys ks = sortedKeys ks' := by
  apply List.eq_of_perm_of_sorted _ (sortedKeys_sorted ks) (sortedKeys_sorted ks')
  rw [List.perm_ext_iff_of_nodup (sortedKeys_nodup ks) (sortedKeys_nodup ks')]
  intro a
  rw [mem_sortedKeys, mem_sortedKeys]
  exact ⟨fun ha => h.mem_iff.mp ha, fun ha => h.mem_iff.mpr ha⟩

theorem meanOfVals_perm {vs vs' : List Rat} (h : vs.Perm vs') :
    meanOfVals vs = meanOfVals vs' := by
  unfold meanOfVals
  rw [h.length_eq, h.sum_eq]

/-- C4: the daily aggregation (groupby date, arithmetic mean of same-day
values) is order-independent — permuting the input rows leaves the
aggregated daily series unchanged. -/
theorem daily_aggregation_perm_invariant (rows rows' : List (Str × Option Rat))
    (h : rows.Perm rows') :
    groupbyMeanOpt rows = groupbyMeanOpt rows' := by
  unfold groupbyMeanOpt
  rw [sortedKeys_perm (h.map Prod.fst)]
  apply List.map_congr_left
  intro k _
  have hf : (rows.filter (fun r => r.1 = k)).Perm (rows'.filter (fun r => r.1 = k)) :=
    h.filter _
  rw [meanOfVals_perm (hf.filterMap Prod.snd)]

/-- Witness for `daily_aggregation_perm_invariant`: the spec's example
series with its two same-day rows swapped. -/
theorem daily_aggregation_perm_invariant_witness :
    (List.Perm
      [("2024-01-01".data, some (1 : Rat)), ("2024-01-01".data, some 3),
       ("2024-01-02".data, some 5)]
      [("2024-01-01".data, some (3 : Rat)), ("2024-01-01".data, some 1),
       ("2024-01-02".data, some 5)])
    ∧ groupbyMeanOpt
        [("2024-01-01".data, some (1 : Rat)), ("2024-01-01".data, some 3),
         ("2024-01-02".data, some 5)]
      = groupbyMeanOpt
        [("2024-01-01".data, some (3 : Rat)), ("2024-01-01".data, some 1),
         ("2024-01-02".data, some 5)] :=
  ⟨List.Perm.swap _ _ _,
   daily_aggregation_perm_invariant _ _ (List.Perm.swap _ _ _)⟩

theorem length_filter_key_le_one {α : Type} (f : α → Str) (k : Str)
    (L : List α) (h : (L.map f).Nodup) :
    (L.filter (fun x => f x = k)).length ≤ 1 := by
  induction L with
  | nil => simp
  | cons x xs ih =>
      rw [List.map_cons, List.nodup_cons] at h
      obtain ⟨hx, hxs⟩ := h
      rw [List.filter_cons]
      by_cases hxk : f x = k
      · have hnil : xs.filter (fun y => f y = k) = [] := by
          rw [List.filter_eq_nil_iff]
          intro y hy hyk
          rw [decide_eq_true_iff] at hyk
          apply hx
          rw [hxk, ← hyk]
          exact List.mem_map_of_mem f hy
        simp [hxk, hnil]
      · rw [decide_eq_false hxk]
        simp only [Bool.false_eq_true, if_false]
        exact ih hxs

theorem length_filter_disjoint_add {α : Type} (p q : α → Bool) (B : List α)
    (h : ∀ b, ¬(p b = true ∧ q b = true)) :
    (B.filter p).length + (B.filter q).length
      = (B.filter (fun b => p b || q b)).length := by
  induction B with
  | nil => simp
  | cons b bs ih =>
      rcases hp : p b with _ | _ <;> rcases hq : q b with _ | _
      · simp [List.filter_cons, hp, hq]
        omega
      · simp [List.filter_cons, hp, hq]
        omega
      · simp [List.filter_cons, hp, hq]
        omega
      · exact absurd ⟨hp, hq⟩ (h b)

/-- Double counting: with distinct left keys, the total number of
right-side matches over all left rows is at most the number of rows whose
key occurs on the left, hence at most `|B|`. -/
theorem sum_match_lengths_le {α β : Type} (f : α → Str) (g : β → Str)
    (A : List α) (B : List β) (hA : (A.map f).Nodup) :
    (A.map (fun a => (B.filter (fun b => g b = f a)).length)).sum
      ≤ (B.filter (fun b => decide (g b ∈ A.map f))).length := by
  induction A with
  | nil => simp
  | cons a A' ih =>
      rw [List.map_cons, List.nodup_cons] at hA
      obtain ⟨ha, hA'⟩ := hA
      rw [List.map_cons, List.sum_cons]
      have hdisj : ∀ b, ¬((fun b => decide (g b = f a)) b = true
          ∧ (fun b => decide (g b ∈ A'.map f)) b = true) := by
        intro b ⟨h1, h2⟩
        rw [decide_eq_true_iff] at h1 h2
        rw [h1] at h2
        exact ha h2
      calc (B.filter (fun b => g b = f a)).length
            + (A'.map (fun a => (B.filter (fun b => g b = f a)).length)).sum
          ≤ (B.filter (fun b => g b = f a)).length
            + (B.filter (fun b => decide (g b ∈ A'.map f))).length := by
              have := ih hA'
              omega
        _ = (B.filter (fun b => decide (g b = f a) || decide (g b ∈ A'.map f))).length :=
              length_filter_disjoint_add _ _ B hdisj
        _ = (B.filter (fun b => decide (g b ∈ (a :: A').map f))).length := by
              apply congrArg
              apply List.filter_congr
              intro b _
              simp [List.mem_cons]

theorem mergeDatasets_length_sum (A B : List (Cell × Rat))
    (hA : ¬ A.isEmpty = true) (hB : ¬ B.isEmpty = true) :
    (mergeDatasets A B).length
      = (A.map (fun a => (B.filter (fun b => cellStr b.1 = cellStr a.1)).length)).sum := by
  unfold mergeDatasets
  rw [if_neg (by simp [hA, hB])]
  rw [List.length_flatMap]
  apply congrArg
  apply List.map_congr_left
  intro a _
  simp [List.length_map]

/-- C2: `merge_datasets` is the inner join on string-converted dates.  For
inputs unique per date, every merged date occurs in both inputs and the
merged row count is at most `min(|A|, |B|)`; either input empty gives the
empty frame (no error). -/
theorem merge_inner_join_spec (A B : List (Cell × Rat))
    (hA : (A.map (fun a => cellStr a.1)).Nodup)
    (hB : (B.map (fun b => cellStr b.1)).Nodup) :
    (mergeDatasets A B).length ≤ min A.length B.length
    ∧ (∀ m ∈ mergeDatasets A B,
        m.1 ∈ A.map (fun a => cellStr a.1) ∧ m.1 ∈ B.map (fun b => cellStr b.1))
    ∧ (A = [] → mergeDatasets A B = [])
    ∧ (B = [] → mergeDatasets A B = []) := by
  refine ⟨?_, ?_, ?_, ?_⟩
  · by_cases hAe : A.isEmpty
    · unfold mergeDatasets
      simp [hAe]
    · by_cases hBe : B.isEmpty
      · unfold mergeDatasets
        simp [hBe]
      · rw [mergeDatasets_length_sum A B hAe hBe]
        refine le_min ?_ ?_
        · calc (A.map (fun a => (B.filter (fun b => cellStr b.1 = cellStr a.1)).length)).sum
              ≤ (A.map (fun a => (B.filter (fun b => cellStr b.1 = cellStr a.1)).length)).length • 1 := by
                apply List.sum_le_card_nsmul
                intro x hx
                rw [List.mem_map] at hx
                obtain ⟨a, _, rfl⟩ := hx
                exact length_filter_key_le_one (fun b => cellStr b.1) (cellStr a.1) B hB
            _ = A.length := by simp
        · calc (A.map (fun a => (B.filter (fun b => cellStr b.1 = cellStr a.1)).length)).sum
              ≤ (B.filter (fun b => decide (cellStr b.1 ∈ A.map (fun a => cellStr a.1)))).length :=
                sum_match_lengths_le (fun a => cellStr a.1) (fun b => cellStr b.1) A B hA
            _ ≤ B.length := List.length_filter_le _ B
  · intro m hm
    unfold mergeDatasets at hm
    by_cases he : (A.isEmpty || B.isEmpty) = true
    · rw [if_pos he] at hm
      exact absurd hm (List.not_mem_nil m)
    · rw [if_neg he] at hm
      rw [List.mem_flatMap] at hm
      obtain ⟨a, haA, hm⟩ := hm
      rw [List.mem_map] at hm
      obtain ⟨b, hbB, rfl⟩ := hm
      rw [List.mem_filter] at hbB
      obtain ⟨hbB, hkey⟩ := hbB
      rw [decide_eq_true_iff] at hkey
      constructor
      · exact List.mem_map_of_mem (fun a => cellStr a.1) haA
      · rw [← hkey]
        exact List.mem_map_of_mem (fun b => cellStr b.1) hbB
  · intro hAe
    subst hAe
    rfl
  · intro hBe
    subst hBe
    unfold mergeDatasets
    simp

/-- Witness for `merge_inner_join_spec` on two small date-unique series. -/
theorem merge_inner_join_spec_witness :
    (([(Cell.str "2024-01-01".data, (1 : Rat)),
       (Cell.str "2024-01-02".data, 2)].map (fun a => cellStr a.1)).Nodup)
    ∧ (([(Cell.str "2024-01-02".data, (102 : Rat))].map (fun b => cellStr b.1)).Nodup)
    ∧ ((mergeDatasets
          [(Cell.str "2024-01-01".data, (1 : Rat)), (Cell.str "2024-01-02".data, 2)]
          [(Cell.str "2024-01-02".data, (102 : Rat))]).length
        ≤ min 2 1
       ∧ (∀ m ∈ mergeDatasets
            [(Cell.str "2024-01-01".data, (1 : Rat)), (Cell.str "2024-01-02".data, 2)]
            [(Cell.str "2024-01-02".data, (102 : Rat))],
          m.1 ∈ [(Cell.str "2024-01-01".data, (1 : Rat)),
                 (Cell.str "2024-01-02".data, 2)].map (fun a => cellStr a.1)
          ∧ m.1 ∈ [(Cell.str "2024-01-02".data, (102 : Rat))].map (fun b => cellStr b.1))
       ∧ ([(Cell.str "2024-01-01".data, (1 : Rat)), (Cell.str "2024-01-02".data, 2)] = []
            → mergeDatasets
                [(Cell.str "2024-01-01".data, (1 : Rat)), (Cell.str "2024-01-02".data, 2)]
                [(Cell.str "2024-01-02".data, (102 : Rat))] = [])
       ∧ ([(Cell.str "2024-01-02".data, (102 : Rat))] = []
            → mergeDatasets
                [(Cell.str "2024-01-01".data, (1 : Rat)), (Cell.str "2024-01-02".data, 2)]
                [(Cell.str "2024-01-02".data, (102 : Rat))] = [])) :=
  ⟨by decide, by decide,
   merge_inner_join_spec _ _ (by decide) (by decide)⟩

/-- After the first row every attached diff is present, so the `dropna`
keeps everything. -/
theorem withDiffs_some_filter (p : MRow) (rs : List MRow) :
    (withDiffs (some p) rs).filter (fun r => r.dTone.isSome && r.dPrice.isSome)
      = withDiffs (some p) rs := by
  induction rs generalizing p with
  | nil => rfl
  | cons r rs ih =>
      unfold withDiffs
      rw [List.filter_cons]
      simp [ih r]

/-- `withDiffs` after a predecessor is the zip of consecutive rows. -/
theorem withDiffs_some_eq_zip (p : MRow) (rs : List MRow) :
    withDiffs (some p) rs
      = ((p :: rs).zip rs).map (fun pr =>
          { date := pr.2.date, tone := pr.2.tone, price := pr.2.price,
            dTone := some (pr.2.tone - pr.1.tone),
            dPrice := some (pr.2.price - pr.1.price) }) := by
  induction rs generalizing p with
  | nil => rfl
  | cons r rs ih =>
      unfold withDiffs
      rw [List.zip_cons_cons, List.map_cons]
      rw [ih r]
      simp

/-- Closed form of the differencer: the output is the consecutive-pair zip
of the input (so the first row is dropped). -/
theorem calculateDifferences_eq_zip (df : List MRow) :
    calculateDifferences df
      = (df.zip df.tail).map (fun pr =>
          { date := pr.2.date, tone := pr.2.tone, price := pr.2.price,
            dTone := some (pr.2.tone - pr.1.tone),
            dPrice := some (pr.2.price - pr.1.price) }) := by
  cases df with
  | nil => rfl
  | cons r rs =>
      unfold calculateDifferences
      simp only [List.isEmpty_cons, Bool.false_eq_true, if_false]
      unfold withDiffs
      rw [List.filter_cons]
      simp only [Option.map_none, Option.isSome_none, Bool.false_and,
        Bool.false_eq_true, if_false]
      rw [withDiffs_some_filter, withDiffs_some_eq_zip]
      rfl

/-- C3: on a merged frame with no missing values the differencer returns
`|input| - 1` rows (`0` when `|input| ≤ 1`), and row `i` carries the
consecutive differences `input[i+1] - input[i]` of each value column
independently; the first input row, which has no predecessor, is dropped. -/
theorem differencer_spec (df : List MRow) :
    (calculateDifferences df).length = df.length - 1
    ∧ ∀ i (h1 : i + 1 < df.length) (h2 : i < (calculateDifferences df).length),
        ((calculateDifferences df).get ⟨i, h2⟩).dTone
            = some ((df.get ⟨i + 1, h1⟩).tone - (df.get ⟨i, by omega⟩).tone)
        ∧ ((calculateDifferences df).get ⟨i, h2⟩).dPrice
            = some ((df.get ⟨i + 1, h1⟩).price - (df.get ⟨i, by omega⟩).price) := by
  rw [calculateDifferences_eq_zip]
  constructor
  · rw [List.length_map, List.length_zip, List.length_tail]
    omega
  · intro i h1 h2
    rw [List.length_map, List.length_zip, List.length_tail] at h2
    have hi : i < df.length := by omega
    have hit : i < df.tail.length := by
      rw [List.length_tail]
      omega
    simp only [List.get_eq_getElem, List.getElem_map, List.getElem_zip,
      List.getElem_tail]
    trivial

/-- Witness for `differencer_spec` on a three-row merged frame. -/
theorem differencer_spec_witness :
    (calculateDifferences
        [⟨"2024-01-01".data, 3, 100⟩, ⟨"2024-01-02".data, 5, 102⟩,
         ⟨"2024-01-03".data, 7, 99⟩]).length = 3 - 1
    ∧ ((calculateDifferences
        [⟨"2024-01-01".data, 3, 100⟩, ⟨"2024-01-02".data, 5, 102⟩,
         ⟨"2024-01-03".data, 7, 99⟩]).get ⟨0, by decide⟩).dTone
        = some ((5 : Rat) - 3)
    ∧ ((calculateDifferences
        [⟨"2024-01-01".data, 3, 100⟩, ⟨"2024-01-02".data, 5, 102⟩,
         ⟨"2024-01-03".data, 7, 99⟩]).get ⟨0, by decide⟩).dPrice
        = some ((102 : Rat) - 100) :=
  ⟨(differencer_spec _).1,
   ((differencer_spec _).2 0 (by decide) (by decide)).1,
   ((differencer_spec _).2 0 (by decide) (by decide)).2⟩

theorem startsWith_iff (n h : Str) : startsWith n h = true ↔ n <+: h := by
  induction n generalizing h with
  | nil => simp [startsWith]
  | cons c cs ih =>
      cases h with
      | nil => simp [startsWith]
      | cons d ds =>
          simp [startsWith, ih, List.cons_prefix_cons, Bool.and_eq_true,
            decide_eq_true_iff, and_comm]

theorem containsSub_iff (h n : Str) : containsSub h n = true ↔ n <:+: h := by
  induction h with
  | nil => simp [containsSub, List.isEmpty_iff]
  | cons c t ih =>
      simp only [containsSub, Bool.or_eq_true, startsWith_iff, ih,
        List.infix_cons_iff]

theorem adj_close_imp_close (s : Str) :
    containsSub s "adj close".data = true → containsSub s "close".data = true := by
  rw [containsSub_iff, containsSub_iff]
  intro h
  have hsub : "close".data <:+: "adj close".data := by
    rw [← containsSub_iff]
    decide
  exact hsub.trans h

/-- C5 (amended): the selected price column is the first column whose
lowercased name contains `close`; the `elif 'adj close'` arm is
unreachable, so an adjusted-close column wins only when it precedes the
bare close column in column order. -/
theorem price_col_first_close_match (cols : List Str) :
    findPriceCol cols
      = cols.find? (fun c => containsSub (c.map Char.toLower) "close".data) := by
  induction cols with
  | nil => rfl
  | cons c cs ih =>
      unfold findPriceCol
      cases hc : containsSub (c.map Char.toLower) "close".data
      · have h2 : containsSub (c.map Char.toLower) "adj close".data = false := by
          cases h2 : containsSub (c.map Char.toLower) "adj close".data
          · rfl
          · exact absurd (adj_close_imp_close _ h2) (by simp [hc])
        simp [List.find?_cons, hc, h2, ih]
      · simp [List.find?_cons, hc]

/-- C5 counterexample: with a bare `Close` column listed before
`Adj Close`, the bare close column is selected, not the adjusted close. -/
theorem adjusted_close_not_preferred :
    findPriceCol ["Close".data, "Adj Close".data] = some "Close".data
    ∧ some "Close".data ≠ some "Adj Close".data := by
  constructor
  · decide
  · decide

theorem groupbyMeanOpt_keys (rows : List (Str × Option Rat)) :
    (groupbyMeanOpt rows).map Prod.fst = sortedKeys (rows.map Prod.fst) := by
  unfold groupbyMeanOpt
  rw [List.map_map]
  exact List.map_id'' (fun k => rfl) _

/-- Every branch of `process_gdelt_data` returns either a row-less frame or
a `groupby`-aggregated frame. -/
theorem processGdeltData_cases (pdate : Cell → Option Cell)
    (pf : Str → Option Rat) (f : Frame) :
    processGdeltData pdate pf f = []
    ∨ ∃ f2, processGdeltData pdate pf f = aggregateDaily f2 := by
  unfold processGdeltData processGdeltRun
  repeat' split
  all_goals first
    | exact Or.inl rfl
    | exact Or.inr ⟨_, rfl⟩

/-- C10: the daily series returned by `process_gdelt_data` carries at most
one row per date and its rows are in strictly ascending date-string order
(the `groupby` sorts its keys), so the frame handed to the merge and
differencing steps is date-ordered with no explicit sort. -/
theorem process_gdelt_output_sorted_unique (pdate : Cell → Option Cell)
    (pf : Str → Option Rat) (f : Frame) :
    ((processGdeltData pdate pf f).map Prod.fst).Sorted (· < ·)
    ∧ ((processGdeltData pdate pf f).map Prod.fst).Nodup := by
  rcases processGdeltData_cases pdate pf f with h | ⟨f2, h⟩
  · rw [h]
    exact ⟨List.sorted_nil, List.nodup_nil⟩
  · rw [h]
    unfold aggregateDaily
    rw [groupbyMeanOpt_keys]
    exact ⟨sortedKeys_sorted _, sortedKeys_nodup _⟩

theorem frameCols_setCol_pos {f : Frame} {c : Str} (x : List Cell)
    (h : frameHasCol f c = true) :
    frameCols (frameSetCol f c x) = frameCols f := by
  unfold frameSetCol
  rw [if_pos h]
  unfold frameCols
  rw [List.map_map]
  apply List.map_congr_left
  intro p _
  by_cases hp : p.1 = c
  · simp [hp]
  · simp [hp]

theorem frameCols_setCol_neg {f : Frame} {c : Str} (x : List Cell)
    (h : frameHasCol f c = false) :
    frameCols (frameSetCol f c x) = frameCols f ++ [c] := by
  unfold frameSetCol
  rw [h]
  unfold frameCols
  simp

theorem frameHasCol_setCol_mono {f : Frame} {c c' : Str} (x : List Cell)
    (h : frameHasCol f c' = true) :
    frameHasCol (frameSetCol f c x) c' = true := by
  unfold frameHasCol at h ⊢
  rw [decide_eq_true_iff] at h ⊢
  by_cases hc : frameHasCol f c = true
  · rw [frameCols_setCol_pos x hc]
    exact h
  · rw [frameCols_setCol_neg x (by simpa using hc)]
    exact List.mem_append_left _ h

theorem frameHasCol_setCol_self (f : Frame) (c : Str) (x : List Cell) :
    frameHasCol (frameSetCol f c x) c = true := by
  unfold frameHasCol
  rw [decide_eq_true_iff]
  by_cases hc : frameHasCol f c = true
  · rw [frameCols_setCol_pos x hc]
    unfold frameHasCol at hc
    rw [decide_eq_true_iff] at hc
    exact hc
  · rw [frameCols_setCol_neg x (by simpa using hc)]
    exact List.mem_append_right _ (List.mem_singleton_self c)

theorem frameGetCol_map_overwrite_self {c : Str} (x : List Cell)
    (f : Frame) (h : ∃ p ∈ f, p.1 = c) :
    frameGetCol (f.map (fun p => if p.1 = c then (c, x) else p)) c = x := by
  induction f with
  | nil =>
      obtain ⟨p0, hp0, _⟩ := h
      exact absurd hp0 (List.not_mem_nil p0)
  | cons q qs ih =>
      unfold frameGetCol
      rw [List.map_cons, List.find?_cons]
      by_cases hq : q.1 = c
      · simp [hq]
      · rw [if_neg hq]
        rw [show (decide (q.1 = c)) = false from decide_eq_false hq]
        obtain ⟨p0, hp0, hpc⟩ := h
        rcases List.mem_cons.mp hp0 with rfl | hp0'
        · exact absurd hpc hq
        · exact ih ⟨p0, hp0', hpc⟩

theorem frameGetCol_map_overwrite_other {c c' : Str} (x : List Cell)
    (hne : c' ≠ c) (f : Frame) :
    frameGetCol (f.map (fun p => if p.1 = c then (c, x) else p)) c'
      = frameGetCol f c' := by
  induction f with
  | nil => rfl
  | cons q qs ih =>
      unfold frameGetCol
      rw [List.map_cons, List.find?_cons, List.find?_cons]
      by_cases hq : q.1 = c
      · rw [if_pos hq]
        rw [show (decide ((c, x).1 = c')) = false from
              decide_eq_false (fun hh => hne (hh.symm))]
        rw [show (decide (q.1 = c')) = false from
              decide_eq_false (fun hh => hne ((hq ▸ hh).symm))]
        exact ih
      · rw [if_neg hq]
        cases hqc : decide (q.1 = c')
        · exact ih
        · rfl

theorem frameGetCol_setCol_self (f : Frame) (c : Str) (x : List Cell) :
    frameGetCol (frameSetCol f c x) c = x := by
  unfold frameSetCol
  by_cases hc : frameHasCol f c = true
  · rw [if_pos hc]
    unfold frameHasCol at hc
    rw [decide_eq_true_iff] at hc
    unfold frameCols at hc
    rw [List.mem_map] at hc
    exact frameGetCol_map_overwrite_self x f hc
  · rw [if_neg hc]
    unfold frameGetCol
    have hnone : f.find? (fun p => p.1 = c) = none := by
      rw [List.find?_eq_none]
      intro p hp hpc
      rw [decide_eq_true_iff] at hpc
      apply hc
      unfold frameHasCol
      rw [decide_eq_true_iff]
      unfold frameCols
      rw [← hpc]
      exact List.mem_map_of_mem Prod.fst hp
    rw [List.find?_append, hnone]
    simp

theorem frameGetCol_setCol_other {c c' : Str} (f : Frame) (x : List Cell)
    (hne : c' ≠ c) :
    frameGetCol (frameSetCol f c x) c' = frameGetCol f c' := by
  unfold frameSetCol
  by_cases hc : frameHasCol f c = true
  · rw [if_pos hc]
    exact frameGetCol_map_overwrite_other x hne f
  · rw [if_neg hc]
    unfold frameGetCol
    rw [List.find?_append]
    cases hf : f.find? (fun p => p.1 = c')
    · have h1 : List.find? (fun p => p.1 = c') [(c, x)] = none := by
        simp [Ne.symm hne]
      simp [h1]
    · simp

/-- C6 (amended): with the fixed-width numeric `DATE` column present (and
no `seendate`), `process_gdelt_data` parses the timestamp cell-wise with
the explicit `%Y%m%d%H%M%S` format and obtains each row's sentiment by
splitting the delimited tone string on commas and converting positional
component 2; a row whose tone sub-field cannot be extracted (non-string
value, too few components, unparsable number) gets a missing value (NaN) —
not a default value — and the daily aggregation then skips it. -/
theorem gdelt_direct_normalization (pdate : Cell → Option Cell)
    (pf : Str → Option Rat) (f : Frame) (dates : List Cell)
    (hne : frameEmpty f = false)
    (hsd : frameHasCol f "seendate".data = false)
    (hDT : frameHasCol f "DATE".data = true)
    (hV2 : frameHasCol f "V2Tone".data = true)
    (hparse : (frameGetCol f "DATE".data).mapM parseDateCell14 = some dates) :
    frameGetCol (processGdeltEffect pdate pf f) "Date".data = dates
    ∧ frameGetCol (processGdeltEffect pdate pf f) "V2ToneOut".data
        = (frameGetCol f "V2Tone".data).map (toneCell pf)
    ∧ (∀ c, toneCell pf c = Cell.NA ↔ extractToneValue pf c 2 = none)
    ∧ processGdeltData pdate pf f
        = aggregateDaily (processGdeltEffect pdate pf f) := by
  have hV2' : frameHasCol (frameSetCol f "Date".data dates) "V2Tone".data = true :=
    frameHasCol_setCol_mono _ hV2
  have hrun : processGdeltRun pdate pf f
      = (frameSetCol (frameSetCol f "Date".data dates) "V2ToneOut".data
           ((frameGetCol (frameSetCol f "Date".data dates) "V2Tone".data).map
             (toneCell pf)),
         aggregateDaily (frameSetCol (frameSetCol f "Date".data dates)
           "V2ToneOut".data
           ((frameGetCol (frameSetCol f "Date".data dates) "V2Tone".data).map
             (toneCell pf)))) := by
    unfold processGdeltRun
    simp only [hne, hsd, hDT, hparse, hV2', Bool.false_eq_true, if_false,
      if_true]
  refine ⟨?_, ?_, ?_, ?_⟩
  · unfold processGdeltEffect
    rw [hrun]
    show frameGetCol (frameSetCol _ "V2ToneOut".data _) "Date".data = dates
    rw [frameGetCol_setCol_other _ _ (by decide)]
    exact frameGetCol_setCol_self _ _ _
  · unfold processGdeltEffect
    rw [hrun]
    show frameGetCol (frameSetCol _ "V2ToneOut".data _) "V2ToneOut".data = _
    rw [frameGetCol_setCol_self]
    rw [frameGetCol_setCol_other _ _ (by decide)]
  · intro c
    unfold toneCell
    cases h : extractToneValue pf c 2 <;> simp [h]
  · unfold processGdeltData processGdeltEffect
    rw [hrun]

/-- Witness for `gdelt_direct_normalization` on `gdeltSample`. -/
theorem gdelt_direct_normalization_witness :
    (frameEmpty gdeltSample = false)
    ∧ (frameHasCol gdeltSample "seendate".data = false)
    ∧ (frameHasCol gdeltSample "DATE".data = true)
    ∧ (frameHasCol gdeltSample "V2Tone".data = true)
    ∧ ((frameGetCol gdeltSample "DATE".data).mapM parseDateCell14
        = some [Cell.str "2024-01-01".data])
    ∧ (frameGetCol (processGdeltEffect (fun _ => none) parseDecimal gdeltSample)
          "Date".data = [Cell.str "2024-01-01".data]
       ∧ frameGetCol (processGdeltEffect (fun _ => none) parseDecimal gdeltSample)
          "V2ToneOut".data
          = (frameGetCol gdeltSample "V2Tone".data).map (toneCell parseDecimal)
       ∧ (∀ c, toneCell parseDecimal c = Cell.NA
            ↔ extractToneValue parseDecimal c 2 = none)
       ∧ processGdeltData (fun _ => none) parseDecimal gdeltSample
          = aggregateDaily
              (processGdeltEffect (fun _ => none) parseDecimal gdeltSample)) :=
  ⟨by decide, by decide, by decide, by decide, by decide,
   gdelt_direct_normalization (fun _ => none) parseDecimal gdeltSample
     [Cell.str "2024-01-01".data]
     (by decide) (by decide) (by decide) (by decide) (by decide)⟩

/-- C6 counterexample: a row whose tone sub-field cannot be extracted gets
`None`, and the daily mean skips the row entirely (here the day's aggregate
stays 4), instead of using the neutral default value 1.0 for that row
(which would make the aggregate (4+1)/2). -/
theorem tone_extraction_failure_no_default :
    extractToneValue parseDecimal (Cell.str "bad".data) 2 = none
    ∧ extractToneValue parseDecimal (Cell.num 3) 2 = none
    ∧ processGdeltData (fun _ => none) parseDecimal
        [("DATE".data, [Cell.num 20240101120000, Cell.num 20240101130000]),
         ("V2Tone".data, [Cell.str "0,0,4".data, Cell.str "bad".data])]
        = [("2024-01-01".data, meanOfVals [(4 : Rat)])]
    ∧ meanOfVals [(4 : Rat)] = some 4
    ∧ some (4 : Rat) ≠ some (((4 : Rat) + 1) / 2) := by
  refine ⟨by decide, by decide, ?_, ?_, ?_⟩
  · rfl
  · rw [meanOfVals]
    norm_num
  · intro h
    rw [Option.some_inj] at h
    norm_num at h

theorem diffCellsGo_some (cells : List Cell) :
    ∀ prev, (prev = Cell.NA ∨ ∃ q, prev = Cell.num q) →
    (∀ c ∈ cells, ∃ q, c = Cell.num q) →
    ∃ d, diffCellsGo prev cells = some d := by
  induction cells with
  | nil =>
      intro prev _ _
      exact ⟨[], rfl⟩
  | cons c cs ih =>
      intro prev hprev h
      obtain ⟨q, hc⟩ := h c (List.mem_cons_self c cs)
      subst hc
      obtain ⟨rest, hrest⟩ := ih (Cell.num q) (Or.inr ⟨q, rfl⟩)
        (fun x hx => h x (List.mem_cons_of_mem _ hx))
      have hsub : ∃ d0, cellSub (Cell.num q) prev = some d0 := by
        rcases hprev with rfl | ⟨p, rfl⟩
        · exact ⟨Cell.NA, rfl⟩
        · exact ⟨Cell.num (q - p), rfl⟩
      obtain ⟨d0, hd0⟩ := hsub
      refine ⟨d0 :: rest, ?_⟩
      unfold diffCellsGo
      rw [hd0, hrest]
      rfl

/-- C9 (amended): `merge_datasets` and `process_stock_data` leave the
caller's frames unchanged, but `calculate_differences` and
`process_gdelt_data` mutate the caller's frame in place: the former adds
the `diff_Adj Close` column to any non-empty frame with a numeric
`Adj Close` column, the latter adds the `Date` column to any non-empty
frame lacking the date columns — in both cases the caller's frame after
the call differs from the frame passed in. -/
theorem stage_mutation_spec :
    (∀ a b : Frame, mergeEffect a b = (a, b))
    ∧ (∀ f : Frame, processStockEffect f = f)
    ∧ (∀ f : Frame, frameEmpty f = false
        → frameHasCol f "Adj Close".data = true
        → (∀ c ∈ frameGetCol f "Adj Close".data, ∃ q, c = Cell.num q)
        → frameHasCol f "diff_Adj Close".data = false
        → frameHasCol (calcDiffEffect f) "diff_Adj Close".data = true
          ∧ calcDiffEffect f ≠ f)
    ∧ (∀ (pdate : Cell → Option Cell) (pf : Str → Option Rat) (f : Frame),
        frameEmpty f = false
        → frameHasCol f "seendate".data = false
        → frameHasCol f "DATE".data = false
        → frameHasCol f "date".data = false
        → frameHasCol f "Date".data = false
        → frameHasCol (processGdeltEffect pdate pf f) "Date".data = true
          ∧ processGdeltEffect pdate pf f ≠ f) := by
  refine ⟨fun a b => rfl, fun f => rfl, ?_, ?_⟩
  · intro f hne hAC hnum hdiff
    have hres : frameHasCol (calcDiffEffect f) "diff_Adj Close".data = true := by
      unfold calcDiffEffect
      obtain ⟨d1, hd1⟩ := diffCellsGo_some (frameGetCol f "Adj Close".data)
        Cell.NA (Or.inl rfl) hnum
      have hd1' : diffCells (frameGetCol f "Adj Close".data) = some d1 := hd1
      simp only [hne, hAC, Bool.false_eq_true, if_false, if_true, hd1']
      split
      · split
        · exact frameHasCol_setCol_self _ _ _
        · exact frameHasCol_setCol_mono _ (frameHasCol_setCol_self _ _ _)
      · exact frameHasCol_setCol_self _ _ _
    refine ⟨hres, fun heq => ?_⟩
    rw [heq] at hres
    rw [hres] at hdiff
    exact Bool.noConfusion hdiff
  · intro pdate pf f hne hsd hDT hdate hDate
    have hres : frameHasCol (processGdeltEffect pdate pf f) "Date".data = true := by
      unfold processGdeltEffect processGdeltRun
      simp only [hne, hsd, hDT, hdate, Bool.false_eq_true, if_false]
      exact frameHasCol_setCol_mono _ (frameHasCol_setCol_self _ _ _)
    refine ⟨hres, fun heq => ?_⟩
    rw [heq] at hres
    rw [hres] at hDate
    exact Bool.noConfusion hDate

/-- C9 counterexample: `calculate_differences` changes the caller's frame
(it gains the diff columns), so the pipeline is not mutation-free. -/
theorem pipeline_stage_mutates_frame :
    calcDiffEffect mergedSample ≠ mergedSample := by
  decide

/-- Witness for `stage_mutation_spec` on `mergedSample`. -/
theorem stage_mutation_spec_witness :
    (frameEmpty mergedSample = false)
    ∧ (frameHasCol mergedSample "Adj Close".data = true)
    ∧ (∀ c ∈ frameGetCol mergedSample "Adj Close".data, ∃ q, c = Cell.num q)
    ∧ (frameHasCol mergedSample "diff_Adj Close".data = false)
    ∧ (frameHasCol (calcDiffEffect mergedSample) "diff_Adj Close".data = true
       ∧ calcDiffEffect mergedSample ≠ mergedSample) :=
  ⟨by decide, by decide,
   fun c hc => by
     rw [show frameGetCol mergedSample "Adj Close".data
           = [Cell.num 1, Cell.num 2] from rfl] at hc
     rcases List.mem_cons.mp hc with rfl | hc2
     · exact ⟨1, rfl⟩
     · rcases List.mem_cons.mp hc2 with rfl | hc3
       · exact ⟨2, rfl⟩
       · exact absurd hc3 (List.not_mem_nil c),
   by decide,
   stage_mutation_spec.2.2.1 mergedSample (by decide) (by decide)
     (fun c hc => by
       rw [show frameGetCol mergedSample "Adj Close".data
             = [Cell.num 1, Cell.num 2] from rfl] at hc
       rcases List.mem_cons.mp hc with rfl | hc2
       · exact ⟨1, rfl⟩
       · rcases List.mem_cons.mp hc2 with rfl | hc3
         · exact ⟨2, rfl⟩
         · exact absurd hc3 (List.not_mem_nil c))
     (by decide)⟩

/-- C7 (amended): both statistics functions are pure; on an empty frame
both return the empty dict, and likewise whenever the level and difference
column pairs are absent.  But a single-row frame that carries the level
columns yields a NON-empty dict from both: `pandas` correlation of one
point is NaN (no raise), and `linregress` on one point does not raise (it
raises only for two or more identical x values) and returns NaN
statistics. -/
theorem analyzer_empty_single_row_spec :
    (∀ df : StatFrame, df.nrows = 0 →
        analyzeCorrelation df = [] ∧ performRegression df = [])
    ∧ (∀ df : StatFrame, (df.tone = none ∨ df.price = none) →
        (df.dTone = none ∨ df.dPrice = none) →
        analyzeCorrelation df = [] ∧ performRegression df = [])
    ∧ (∀ (df : StatFrame) (a b : Rat), df.nrows = 1 →
        df.tone = some [a] → df.price = some [b] →
        (df.dTone = none ∨ df.dPrice = none) →
        analyzeCorrelation df ≠ [] ∧ performRegression df ≠ []) := by
  refine ⟨?_, ?_, ?_⟩
  · rintro ⟨n, tone, price, dt, dp⟩ h
    simp only at h
    subst h
    exact ⟨rfl, rfl⟩
  · rintro ⟨n, tone, price, dt, dp⟩ h1 h2
    simp only at h1 h2
    by_cases hn : n = 0
    · subst hn
      exact ⟨rfl, rfl⟩
    · cases tone <;> cases price <;> cases dt <;> cases dp <;>
        first
          | (rcases h1 with h | h <;> exact Option.noConfusion h)
          | (rcases h2 with h | h <;> exact Option.noConfusion h)
          | (refine ⟨?_, ?_⟩ <;> simp [analyzeCorrelation, performRegression, hn])
  · rintro ⟨n, tone, price, dt, dp⟩ a b hn ht hp hd
    simp only at hn ht hp hd ⊢
    subst hn
    subst ht
    subst hp
    constructor
    · rcases hd with h | h <;> subst h
      · simp [analyzeCorrelation]
      · cases dt <;> simp [analyzeCorrelation]
    · rcases hd with h | h <;> subst h
      · simp [performRegression, linregressModel]
      · cases dt <;> simp [performRegression, linregressModel]

/-- C7 counterexample: on the one-row frame carrying the sentiment and
price columns, both `analyze_correlation` and `perform_regression` return
a non-empty dict, not the empty dict. -/
theorem single_row_stats_not_empty :
    analyzeCorrelation ⟨1, some [3], some [100], none, none⟩ ≠ []
    ∧ performRegression ⟨1, some [3], some [100], none, none⟩ ≠ [] := by
  constructor <;> decide

/-- Witness for `analyzer_empty_single_row_spec` at a one-row frame. -/
theorem analyzer_empty_single_row_spec_witness :
    ((⟨1, some [3], some [100], none, none⟩ : StatFrame).nrows = 1)
    ∧ ((⟨1, some [(3 : Rat)], some [100], none, none⟩ : StatFrame).tone = some [3])
    ∧ ((⟨1, some [(3 : Rat)], some [100], none, none⟩ : StatFrame).price = some [100])
    ∧ ((⟨1, some [(3 : Rat)], some [100], none, none⟩ : StatFrame).dTone = none
        ∨ (⟨1, some [(3 : Rat)], some [100], none, none⟩ : StatFrame).dPrice = none)
    ∧ (analyzeCorrelation ⟨1, some [3], some [100], none, none⟩ ≠ []
       ∧ performRegression ⟨1, some [3], some [100], none, none⟩ ≠ []) :=
  ⟨rfl, rfl, rfl, Or.inl rfl,
   analyzer_empty_single_row_spec.2.2 ⟨1, some [3], some [100], none, none⟩
     3 100 rfl rfl rfl (Or.inl rfl)⟩
